import Mathlib

/-!
Verification of the PennyLane-Qulacs device (`pennylane_qulacs/qulacs_device.py`)
against its natural-language specification.

The Python module is shallowly embedded.  Module-level pure functions
(`_reverse_state`, `hermitian`, the `toffoli` constant) become Lean functions
over rational scalars, and the stateful `QulacsDevice.apply` loop becomes an
explicit fold over a device state that records the calls made to the external
qulacs engine (the replayable circuit log and the state-container mutations).
Floating-point numbers are modelled by `ℚ`; the float comparisons
(`np.isclose`, `np.allclose`) are modelled exactly by their defining
inequalities, with square roots eliminated by squaring both sides.
-/

/-- A complex number with rational real and imaginary parts.  Models the
complex floating-point scalars the Python code stores in amplitude vectors
and matrices. -/
structure CQ where
  re : ℚ
  im : ℚ
  deriving DecidableEq, Repr, Inhabited

/-- Complex conjugate, models `np.conj` on one entry. -/
def CQ.conj (z : CQ) : CQ := ⟨z.re, -z.im⟩

/-- Difference of two entries. -/
def CQ.sub (x y : CQ) : CQ := ⟨x.re - y.re, x.im - y.im⟩

/-- Squared modulus `|z|²` (exact, no square root). -/
def CQ.normSq (z : CQ) : ℚ := z.re * z.re + z.im * z.im

/-- Reversal of the binary digits of an `N`-bit index: bit `k` of the input
becomes bit `N-1-k` of the output.  For a length-`2^N` array,
`np.reshape([2]*N)` followed by `.T` (which reverses all axes) followed by
`.flatten()` (C order) moves the entry at position `j` to the position whose
binary digits are those of `j` reversed; `bitRev N` is that index map. -/
def bitRev : ℕ → ℕ → ℕ
  | 0, _ => 0
  | N + 1, j => j % 2 * 2 ^ N + bitRev N (j / 2)

/-- Fuel-based helper for `log2_floor` (structural recursion, so that the
kernel can evaluate it on concrete inputs). -/
def log2_aux : ℕ → ℕ → ℕ
  | 0, _ => 0
  | f + 1, n => if 2 ≤ n then log2_aux f (n / 2) + 1 else 0

/-- `int(np.log2(n))` for a positive integer `n`: the floor of the base-2
logarithm.  Agrees with `Nat.log2` (see `log2_floor_eq`); defined by fuel so
that it reduces definitionally. -/
def log2_floor (n : ℕ) : ℕ := log2_aux n n

/-- `_reverse_state` (qulacs_device.py line 79): reverse the qubit order of a
vector of amplitudes.  The source computes `N = int(np.log2(len(v)))` and
returns `np.array(v).reshape([2]*N).T.flatten()`, i.e. the permutation of the
input by `bitRev N` (see `bitRev`).  Polymorphic because the source permutes
entries without arithmetic on them. -/
def _reverse_state {α : Type} [Inhabited α] (v : List α) : List α :=
  (List.range (2 ^ log2_floor v.length)).map fun j =>
    v.getD (bitRev (log2_floor v.length) j) default

/-- `op.wires[::-1]` (qulacs_device.py line 189): revert the wire numbering
so that it adheres to the qulacs convention. -/
def reverse_wires (w : List ℕ) : List ℕ := w.reverse

/-- The distinct failure exits of the embedded code.  Each constructor models
one concrete `raise` site (or exception source) of `qulacs_device.py`:

* `sequencing`    — `DeviceError` for a state-loading gate after other gates;
* `reshape`       — `numpy` reshape failure inside `_reverse_state` when the
                    input length is not the power of two `2^int(log2 len)`;
* `stateLength`   — `ValueError` "State vector must be of length 2**wires.";
* `normalization` — `ValueError` "Sum of amplitudes-squared does not equal one.";
* `basisBits`     — `ValueError` "BasisState parameter must consist of 0 or 1 integers.";
* `basisLength`   — `ValueError` "BasisState parameter and wires must be of equal length.";
* `unitaryShape`  — `ValueError` "Unitary matrix must be of shape (2**wires, 2**wires).";
* `validation`    — `ValueError` raised by the `hermitian` input validator;
* `indexError`    — Python `IndexError` (e.g. `Rot` with too few wires or angles);
* `keyError`      — Python `KeyError` from `_operation_map[op.name]` for an
                    unsupported operation name;
* `typeError`     — modelling artifact: the operation's parameter payload has
                    the wrong kind for its branch (a Python `TypeError`). -/
inductive QulacsError where
  | sequencing
  | reshape
  | stateLength
  | normalization
  | basisBits
  | basisLength
  | unitaryShape
  | validation
  | indexError
  | keyError
  | typeError
  deriving DecidableEq, Repr

/-- Decidable equality for `Except`, so that concrete raise-or-return results
can be checked by evaluation. -/
instance {ε α : Type} [DecidableEq ε] [DecidableEq α] :
    DecidableEq (Except ε α) := fun x y =>
  match x, y with
  | .ok a, .ok b =>
    if h : a = b then isTrue (by rw [h]) else isFalse (by simp [h])
  | .error a, .error b =>
    if h : a = b then isTrue (by rw [h]) else isFalse (by simp [h])
  | .ok _, .error _ => isFalse (by simp)
  | .error _, .ok _ => isFalse (by simp)

/-- `_reverse_state` with numpy's reshape validity check made explicit: the
reshape to shape `(2,)*int(log2 len)` succeeds exactly when the length equals
`2 ^ int(log2 len)`; otherwise numpy raises. -/
def _reverse_state_checked (v : List CQ) : Except QulacsError (List CQ) :=
  if v.length = 2 ^ log2_floor v.length then .ok (_reverse_state v)
  else .error .reshape

/-- The heterogeneous parameter payload `op.parameters` of a PennyLane
operation: an amplitude vector (`QubitStateVector`), a bit list
(`BasisState`), a matrix (`QubitUnitary`), or a list of real angles
(parametric gates; empty for non-parametric ones). -/
inductive Params where
  | vec (v : List CQ)
  | bits (b : List ℤ)
  | mat (m : List (List CQ))
  | angles (a : List ℚ)
  deriving DecidableEq, Repr

instance : Inhabited Params := ⟨.angles []⟩

/-- A PennyLane operation as seen by `QulacsDevice.apply`: a name (dispatched
on as a string, as in the source), caller-convention wires, and parameters. -/
structure Op where
  name : String
  wires : List ℕ
  par : Params
  deriving DecidableEq, Repr

instance : Inhabited Op := ⟨⟨"", [], default⟩⟩

/-- The matrix handed to a qulacs `DenseMatrix` gate: either an explicit
matrix (`QubitUnitary`), or one of the module-level constants/generators
`crz(θ)`, `toffoli`, `CSWAP` resolved from `_operation_map`. -/
inductive GMat where
  | lit (m : List (List CQ))
  | crzM (θ : ℚ)
  | toffoliM
  | cswapM
  deriving DecidableEq, Repr

/-- A gate constructed for the qulacs engine: a named primitive
(`gate.RZ(w, θ)`, `gate.CNOT(c, t)`, ...) or a dense-matrix gate
(`gate.DenseMatrix(wires, m)`). -/
inductive QGate where
  | prim (name : String) (wires : List ℕ) (params : List ℚ)
  | dense (wires : List ℕ) (m : GMat)
  deriving DecidableEq, Repr

/-- One call made by the device to the external engine's state container:
`self._state.load(v)`, `self._state.set_computational_basis(i)`, or
`g.update_quantum_state(self._state)`. -/
inductive EngineCall where
  | load (v : List CQ)
  | setBasis (i : ℤ)
  | applyGate (g : QGate)
  deriving DecidableEq, Repr

/-- The mutable state of a `QulacsDevice`: the ordered trace of state-container
calls (standing for the engine's quantum state, which is mutated exactly by
these calls) and the circuit log `self._circuit`. -/
structure DeviceState where
  calls : List EngineCall
  circuit : List QGate
  deriving DecidableEq, Repr

/-- A freshly constructed device: no engine calls, empty circuit. -/
def initState : DeviceState := ⟨[], []⟩

/-- `np.isclose(x, 1.0, atol=1e-10)` keeps numpy's default `rtol=1e-5`, so the
accepted band around 1 has half-width `1e-10 + 1e-5`. -/
def norm_tol : ℚ := 1 / 10000000000 + 1 / 100000

/-- The source's normalization test `np.isclose(np.linalg.norm(v, 2), 1.0,
atol=1e-10)` on the squared norm `s = ‖v‖²`:  `|√s − 1| ≤ τ` holds (with
`τ = `[norm_tol]` < 1`, `√s ≥ 0`) iff `(1−τ)² ≤ s ≤ (1+τ)²`, which is exact
rational arithmetic. -/
def norm_close_to_one (s : ℚ) : Bool :=
  decide ((1 - norm_tol) ^ 2 ≤ s ∧ s ≤ (1 + norm_tol) ^ 2)

/-- `np.linalg.norm(v, 2) ** 2`: the sum of squared moduli of the entries. -/
def sum_norm_sq (v : List CQ) : ℚ := v.foldl (fun a z => a + z.normSq) 0

/-- The operation names reaching the final `else` branch of `apply`: the keys
of `_operation_map` that are mapped to native qulacs primitives.  (The
remaining keys — the state-loading gates, `QubitUnitary`, `Rot`, `CRZ`,
`Toffoli`, `CSWAP` — are consumed by the earlier branches; any other name
raises `KeyError` at the `_operation_map[op.name]` lookup.) -/
def else_names : List String :=
  ["SWAP", "CNOT", "CZ", "S", "S.inv", "T", "T.inv",
   "RX", "RY", "RZ", "PauliX", "PauliY", "PauliZ", "Hadamard"]

/-- One iteration of the `for i, op in enumerate(operations)` loop of
`QulacsDevice.apply` (qulacs_device.py lines 187-270), as a function from the
device state to either the updated device state or the raised error.  A raised
exception leaves the device state unchanged, because in every branch of the
source all validation happens before any mutation. -/
def applyStepE (i : ℕ) (op : Op) (st : DeviceState) :
    Except QulacsError DeviceState :=
  let wires := reverse_wires op.wires
  if 0 < i ∧ (op.name = "BasisState" ∨ op.name = "QubitStateVector") then
    .error .sequencing
  else if op.name = "QubitStateVector" then
    match op.par with
    | .vec v =>
      match _reverse_state_checked v with
      | .error e => .error e
      | .ok input_state =>
        if input_state.length ≠ 2 ^ wires.length then .error .stateLength
        else if ¬ norm_close_to_one (sum_norm_sq input_state) then
          .error .normalization
        else
          -- the source loads `par[0]`, the ORIGINAL un-reversed vector,
          -- not the computed `input_state`
          .ok { st with calls := st.calls ++ [.load v] }
    | _ => .error .typeError
  else if op.name = "BasisState" then
    match op.par with
    | .bits bv =>
      let bits := bv.reverse
      if ¬ bits.all (fun b => b == 0 || b == 1) then .error .basisBits
      else if bits.length ≠ wires.length then .error .basisLength
      else
        .ok { st with
              calls := st.calls ++
                [.setBasis (bits.foldl (fun acc b => 2 * acc + b) 0)] }
    | _ => .error .typeError
  else if op.name = "QubitUnitary" then
    match op.par with
    | .mat m =>
      if m.length ≠ 2 ^ wires.length then .error .unitaryShape
      else
        .ok { calls := st.calls ++ [.applyGate (.dense wires (.lit m))],
              circuit := st.circuit ++ [.dense wires (.lit m)] }
    | _ => .error .typeError
  else if op.name = "Rot" then
    match op.par with
    | .angles l =>
      let par := l.map Neg.neg
      match wires, par with
      | w0 :: _, a :: b :: c :: _ =>
        let st1 : DeviceState :=
          { calls := st.calls ++ [.applyGate (.prim "RZ" [w0] [a])],
            circuit := st.circuit ++ [.prim "RZ" [w0] [a]] }
        let st2 : DeviceState :=
          { calls := st1.calls ++ [.applyGate (.prim "RY" [w0] [b])],
            circuit := st1.circuit ++ [.prim "RY" [w0] [b]] }
        .ok { calls := st2.calls ++ [.applyGate (.prim "RZ" [w0] [c])],
              circuit := st2.circuit ++ [.prim "RZ" [w0] [c]] }
      | _, _ => .error .indexError
    | _ => .error .typeError
  else if op.name = "CRZ" then
    match op.par with
    | .angles (θ :: _) =>
      .ok { calls := st.calls ++ [.applyGate (.dense wires (.crzM θ))],
            circuit := st.circuit ++ [.dense wires (.crzM θ)] }
    | _ => .error .typeError
  else if op.name = "Toffoli" then
    .ok { calls := st.calls ++ [.applyGate (.dense wires .toffoliM)],
          circuit := st.circuit ++ [.dense wires .toffoliM] }
  else if op.name = "CSWAP" then
    .ok { calls := st.calls ++ [.applyGate (.dense wires .cswapM)],
          circuit := st.circuit ++ [.dense wires .cswapM] }
  else if else_names.contains op.name then
    match op.par with
    | .angles l =>
      let par := l.map Neg.neg
      .ok { calls := st.calls ++ [.applyGate (.prim op.name wires par)],
            circuit := st.circuit ++ [.prim op.name wires par] }
    | _ => .error .typeError
  else .error .keyError

/-- The loop of `QulacsDevice.apply` from enumeration index `i` on: apply each
operation in order, stopping at the first raised error (the exception
propagates; operations already applied stay applied). -/
def applyFrom : ℕ → List Op → DeviceState → DeviceState × Option QulacsError
  | _, [], st => (st, none)
  | i, op :: rest, st =>
    match applyStepE i op st with
    | .ok st1 => applyFrom (i + 1) rest st1
    | .error e => (st, some e)

namespace QulacsDevice

/-- `QulacsDevice.apply(operations)` (qulacs_device.py line 185), started on a
device in state `st`.  Returns the final device state together with the raised
error, if any. -/
def apply (ops : List Op) (st : DeviceState) : DeviceState × Option QulacsError :=
  applyFrom 0 ops st

end QulacsDevice

/-- The computational basis vector `e_i` of an `n`-wire engine state: the
vector `set_computational_basis(i)` makes the engine hold. -/
def basis_vec (n : ℕ) (i : ℤ) : List CQ :=
  (List.range (2 ^ n)).map fun k => if (k : ℤ) = i then ⟨1, 0⟩ else ⟨0, 0⟩

/-- Modelled from the spec (§4.4, §6 engine boundary): the state container is
external (the qulacs `QuantumState` object, not part of `src/`); its vector
after a trace of calls is the zero state `e_0` at construction, replaced
wholesale by `load(v)` and `set_computational_basis(i)`.  The effect of a gate
application is engine-internal and left uninterpreted (`none`). -/
def engine_vector (n : ℕ) (calls : List EngineCall) : Option (List CQ) :=
  calls.foldl
    (fun _ c =>
      match c with
      | .load v => some v
      | .setBasis i => some (basis_vec n i)
      | .applyGate _ => none)
    (some (basis_vec n 0))

namespace QulacsDevice

/-- The `state` property (qulacs_device.py line 284):
`_reverse_state(self._state.get_vector())`, for an `n`-wire device whose
engine has seen the call trace `calls`. -/
def state (n : ℕ) (calls : List EngineCall) : Option (List CQ) :=
  (engine_vector n calls).map _reverse_state

end QulacsDevice

/-- Bit `w` of the `n`-wire computational basis index `j`, in the caller
convention where wire `0` is the most significant bit. -/
def bit_at (n j w : ℕ) : ℕ := j / 2 ^ (n - 1 - w) % 2

/-- Modelled from the spec (§4.5): `marginal_prob` is inherited from the
external PennyLane `QubitDevice` base class and is not part of `src/`.  Per
the spec it sums, for each restricted basis pattern `k` over the target
wires (ordered as given, caller convention), the probabilities of all full
basis indices that agree with `k` on those wires. -/
def marginal_prob (probs : List ℚ) (wires : List ℕ) (n : ℕ) : List ℚ :=
  (List.range (2 ^ wires.length)).map fun k =>
    (((List.range (2 ^ n)).filter fun j =>
        (List.range wires.length).all fun b =>
          bit_at n j (wires.getD b 0) == bit_at wires.length k b).map
      fun j => probs.getD j 0).foldl (· + ·) 0

namespace QulacsDevice

/-- `QulacsDevice.analytic_probability(wires=None)` (qulacs_device.py line
272).  `st` is the engine state vector, or `none` when `self._state is None`;
`wires` is the optional wire argument.  The source returns `None` immediately
when `self._state is None`; otherwise `wires = wires or range(self.num_wires)`
replaces both a missing and an empty (falsy) wire sequence by all wires,
`wires[::1]` is an identity slice, and the marginal of
`abs(self.state) ** 2` is returned.  The `Except` wrapper records that a
Python call either returns a value (`ok`, with `none` standing for Python's
`None`) or raises; this code path never raises. -/
def analytic_probability (n : ℕ) (st : Option (List CQ))
    (wires : Option (List ℕ)) : Except QulacsError (Option (List ℚ)) :=
  match st with
  | none => .ok none
  | some vec =>
    let w := match wires with
      | none => List.range n
      | some ws => if ws.isEmpty then List.range n else ws
    let all_probs := (_reverse_state vec).map (fun a => a.normSq)
    .ok (some (marginal_prob all_probs w n))

end QulacsDevice

/-- Number of columns `A.shape[1]` of a rectangular nested-list matrix. -/
def cols (m : List (List CQ)) : ℕ := (m.headD []).length

/-- Conjugate transpose `A.conj().T`: entry `(i, j)` is the conjugate of
`A[j][i]`. -/
def conjT (m : List (List CQ)) : List (List CQ) :=
  (List.range (cols m)).map fun i =>
    (List.range m.length).map fun j => ((m.getD j []).getD i default).conj

/-- numpy's default `rtol` for `np.allclose` / `np.isclose`. -/
def np_rtol : ℚ := 1 / 100000

/-- numpy's default `atol` for `np.allclose`. -/
def np_atol : ℚ := 1 / 100000000

/-- Decides `√x ≤ np_atol + np_rtol · √y` for `x, y ≥ 0` without square
roots: squaring once gives `x − atol² − rtol²·y ≤ 2·atol·rtol·√y`, which
holds when the left side is nonpositive and otherwise squares once more to a
rational inequality. -/
def sqrt_le_tol (x y : ℚ) : Bool :=
  let l := x - np_atol ^ 2 - np_rtol ^ 2 * y
  if l ≤ 0 then true
  else decide (l ^ 2 ≤ 4 * np_atol ^ 2 * np_rtol ^ 2 * y)

/-- One entry of `np.allclose(A, B)` (defaults `rtol=1e-5`, `atol=1e-8`):
`|a − b| ≤ atol + rtol·|b|`, on complex entries, expressed via squared
moduli (see `sqrt_le_tol`). -/
def entry_close (a b : CQ) : Bool := sqrt_le_tol ((a.sub b).normSq) b.normSq

/-- `np.allclose(a, b)` for same-shaped matrices: every entry is close. -/
def allclose (a b : List (List CQ)) : Bool :=
  (List.range a.length).all fun i =>
    (List.range (cols a)).all fun j =>
      entry_close ((a.getD i []).getD j default) ((b.getD i []).getD j default)

/-- `hermitian(*args)` (qulacs_device.py line 94): input validation for an
arbitrary Hermitian expectation.  Raises `ValueError` ("Expectation must be a
square matrix." / "Expectation must be Hermitian.", both modelled by
`.validation`) and otherwise returns the matrix unchanged. -/
def hermitian (m : List (List CQ)) : Except QulacsError (List (List CQ)) :=
  if m.length ≠ cols m then .error .validation
  else if ¬ allclose m (conjT m) then .error .validation
  else .ok m

/-- The module-level constant `toffoli` (qulacs_device.py lines 75-76):
`np.diag([1]*8)` with the top-left 2×2 block overwritten by
`[[0, 1], [1, 0]]`.  So it is the identity on basis states 2..7 and swaps
basis states 0 and 1. -/
def toffoli (i j : Fin 8) : ℚ :=
  if i.val < 2 ∧ j.val < 2 then (if i = j then 0 else 1)
  else (if i = j then 1 else 0)

/-- The basis-index action of a controlled-controlled-not in the engine's
wire ordering: `apply` hands qulacs the reversed wire list
`[target, control1, control0]`, and qulacs associates the first listed wire
with the least significant bit of the dense-matrix index, so the target is
bit 0 and the controls are bits 1 and 2; the target bit flips exactly when
both control bits are 1. -/
def ccnot_fn (j : ℕ) : ℕ :=
  if j / 2 % 2 = 1 ∧ j / 4 % 2 = 1 then 2 * (j / 2) + (1 - j % 2) else j

/-- The permutation matrix the claim describes for `toffoli`: entry `(i, j)`
is 1 exactly when basis state `j` is sent to basis state `i = ccnot_fn j`. -/
def ccnot_perm (i j : Fin 8) : ℚ := if i.val = ccnot_fn j.val then 1 else 0

/-- Modelled from the spec (§4.3 rationale, §6 engine boundary): the external
qulacs engine's primitive rotation gates use the opposite sign convention
from the caller, `RZ(θ) = exp(+iθ/2·Z)` and `RY(θ) = exp(+iθ/2·Y)`; the
engine itself is not part of `src/`.  Action of one engine gate on the state
`(a, b)` of a single-qubit device; gates other than `RZ`/`RY` are left
uninterpreted here. -/
noncomputable def engine_rot_gate (g : QGate) (s : ℂ × ℂ) : ℂ × ℂ :=
  match g with
  | .prim nm _ (θ :: _) =>
    if nm = "RZ" then
      (Complex.exp ((((θ : ℝ) / 2 : ℝ) : ℂ) * Complex.I) * s.1,
       Complex.exp (((-((θ : ℝ) / 2) : ℝ) : ℂ) * Complex.I) * s.2)
    else if nm = "RY" then
      (((Real.cos ((θ : ℝ) / 2) : ℝ) : ℂ) * s.1 +
         ((Real.sin ((θ : ℝ) / 2) : ℝ) : ℂ) * s.2,
       (-(Real.sin ((θ : ℝ) / 2)) : ℝ) * s.1 +
         ((Real.cos ((θ : ℝ) / 2) : ℝ) : ℂ) * s.2)
    else s
  | _ => s

/-- Semantic interpretation of a single-qubit engine-call trace on an initial
state, using `engine_rot_gate` for the rotation gates. -/
noncomputable def run1 (calls : List EngineCall) (s : ℂ × ℂ) : ℂ × ℂ :=
  calls.foldl
    (fun st c =>
      match c with
      | .applyGate g => engine_rot_gate g st
      | _ => st) s

/-! ### Helper lemmas: the floor logarithm -/

theorem log2_aux_eq (f : ℕ) : ∀ n, n ≤ f → log2_aux f n = Nat.log2 n := by
  induction f with
  | zero =>
    intro n hn
    interval_cases n
    simp [log2_aux, Nat.log2]
  | succ f ih =>
    intro n hn
    rw [log2_aux, Nat.log2]
    by_cases h : 2 ≤ n
    · rw [if_pos h, if_pos h, ih (n / 2) (by omega)]
    · rw [if_neg h, if_neg h]

theorem log2_floor_eq (n : ℕ) : log2_floor n = Nat.log2 n :=
  log2_aux_eq n n le_rfl

theorem log2_floor_two_pow (N : ℕ) : log2_floor (2 ^ N) = N := by
  rw [log2_floor_eq, Nat.log2_eq_log_two, Nat.log_pow (by norm_num)]

/-! ### Helper lemmas: bit reversal is an involution -/

theorem bitRev_lt (N : ℕ) : ∀ j, bitRev N j < 2 ^ N := by
  induction N with
  | zero => intro j; simp [bitRev]
  | succ N ih =>
    intro j
    have h1 : bitRev N (j / 2) < 2 ^ N := ih (j / 2)
    have h2 : j % 2 ≤ 1 := by omega
    have h3 : j % 2 * 2 ^ N ≤ 1 * 2 ^ N := Nat.mul_le_mul_right _ h2
    have h4 : bitRev (N + 1) j = j % 2 * 2 ^ N + bitRev N (j / 2) := rfl
    rw [h4, pow_succ]
    omega

/-- Peeling `bitRev` from the other end: the reversal of an `(N+1)`-bit index
is the reversal of its high `N` bits, shifted up by one, plus its top bit. -/
theorem bitRev_succ_right (N : ℕ) :
    ∀ j, bitRev (N + 1) j = 2 * bitRev N (j % 2 ^ N) + j / 2 ^ N % 2 := by
  induction N with
  | zero => intro j; simp [bitRev]
  | succ N ih =>
    intro j
    have key : bitRev (N + 2) j = j % 2 * 2 ^ (N + 1) + bitRev (N + 1) (j / 2) := rfl
    rw [key, ih (j / 2)]
    have e1 : bitRev (N + 1) (j % 2 ^ (N + 1)) =
        j % 2 ^ (N + 1) % 2 * 2 ^ N + bitRev N (j % 2 ^ (N + 1) / 2) := rfl
    rw [e1]
    have e2 : j % 2 ^ (N + 1) % 2 = j % 2 :=
      Nat.mod_mod_of_dvd j (dvd_pow_self 2 (Nat.succ_ne_zero N))
    have e3 : j % 2 ^ (N + 1) / 2 = j / 2 % 2 ^ N := by
      have h : (2 : ℕ) ^ (N + 1) = 2 * 2 ^ N := by ring
      rw [h]
      exact Nat.mod_mul_right_div_self j 2 (2 ^ N)
    have e4 : j / 2 ^ (N + 1) = j / 2 / 2 ^ N := by
      rw [Nat.div_div_eq_div_mul]
      congr 1
      ring
    rw [e2, e3, e4]
    ring

theorem bitRev_bitRev (N : ℕ) : ∀ j, j < 2 ^ N → bitRev N (bitRev N j) = j := by
  induction N with
  | zero =>
    intro j hj
    interval_cases j
    rfl
  | succ N ih =>
    intro j hj
    have hlt : bitRev N (j / 2) < 2 ^ N := bitRev_lt N (j / 2)
    have h1 : bitRev (N + 1) j = j % 2 * 2 ^ N + bitRev N (j / 2) := rfl
    rw [h1, bitRev_succ_right]
    have e1 : (j % 2 * 2 ^ N + bitRev N (j / 2)) % 2 ^ N = bitRev N (j / 2) := by
      rw [mul_comm, Nat.mul_add_mod, Nat.mod_eq_of_lt hlt]
    have e2 : (j % 2 * 2 ^ N + bitRev N (j / 2)) / 2 ^ N = j % 2 := by
      rw [mul_comm, Nat.mul_add_div (Nat.pos_pow_of_pos N (by norm_num)),
        Nat.div_eq_of_lt hlt]
      omega
    rw [e1, e2]
    have hj2 : j / 2 < 2 ^ N := by
      rw [pow_succ] at hj
      omega
    rw [ih (j / 2) hj2]
    omega

/-! ### Helper lemmas: `_reverse_state` -/

theorem _reverse_state_length {α : Type} [Inhabited α] (v : List α) :
    (_reverse_state v).length = 2 ^ log2_floor v.length := by
  simp [_reverse_state]

theorem _reverse_state_getD {α : Type} [Inhabited α] (v : List α) (N : ℕ)
    (hv : v.length = 2 ^ N) (j : ℕ) (hj : j < 2 ^ N) :
    (_reverse_state v).getD j default = v.getD (bitRev N j) default := by
  have hN : log2_floor v.length = N := by rw [hv, log2_floor_two_pow]
  simp only [_reverse_state, hN]
  have hlen : j < (((List.range (2 ^ N)).map fun j =>
      v.getD (bitRev N j) default)).length := by simpa using hj
  rw [List.getD_eq_getElem _ _ hlen]
  simp

theorem _reverse_state_involution {α : Type} [Inhabited α] (v : List α) (N : ℕ)
    (hv : v.length = 2 ^ N) : _reverse_state (_reverse_state v) = v := by
  have hlen1 : (_reverse_state v).length = 2 ^ N := by
    rw [_reverse_state_length, hv, log2_floor_two_pow]
  have hlen2 : (_reverse_state (_reverse_state v)).length = 2 ^ N := by
    rw [_reverse_state_length, hlen1, log2_floor_two_pow]
  apply List.ext_getElem (by rw [hlen2, hv])
  intro j h1 h2
  have hj : j < 2 ^ N := by rw [hlen2] at h1; exact h1
  rw [← List.getD_eq_getElem _ default h1, ← List.getD_eq_getElem _ default h2,
    _reverse_state_getD (_reverse_state v) N hlen1 j hj,
    _reverse_state_getD v N hv (bitRev N j) (bitRev_lt N j),
    bitRev_bitRev N j hj]

/-! ### Helper lemmas: the `apply` loop -/

theorem applyFrom_append_ok (xs : List Op) :
    ∀ (ys : List Op) (i : ℕ) (st st1 : DeviceState),
      applyFrom i xs st = (st1, none) →
      applyFrom i (xs ++ ys) st = applyFrom (i + xs.length) ys st1 := by
  induction xs with
  | nil =>
    intro ys i st st1 h
    simp only [applyFrom] at h
    injection h with h1 h2
    subst h1
    simp [applyFrom]
  | cons op rest ih =>
    intro ys i st st1 h
    cases hstep : applyStepE i op st with
    | ok st2 =>
      simp only [applyFrom, List.cons_append, hstep] at h ⊢
      rw [List.append_eq, ih ys (i + 1) st2 st1 h, List.length_cons]
      congr 1
      omega
    | error e =>
      simp only [applyFrom, hstep] at h
      simp at h

theorem applyFrom_append_err (xs : List Op) :
    ∀ (ys : List Op) (i : ℕ) (st st1 : DeviceState) (e : QulacsError),
      applyFrom i xs st = (st1, some e) →
      applyFrom i (xs ++ ys) st = (st1, some e) := by
  induction xs with
  | nil =>
    intro ys i st st1 e h
    simp only [applyFrom] at h
    injection h with h1 h2
    simp at h2
  | cons op rest ih =>
    intro ys i st st1 e h
    cases hstep : applyStepE i op st with
    | ok st2 =>
      simp only [applyFrom, List.cons_append, hstep] at h ⊢
      rw [List.append_eq]
      exact ih ys (i + 1) st2 st1 e h
    | error e2 =>
      simp only [applyFrom, List.cons_append, hstep] at h ⊢
      exact h

/-- The sequencing guard (qulacs_device.py lines 192-196): a state-loading
operation at a positive enumeration index raises `DeviceError`. -/
theorem applyStepE_sequencing (i : ℕ) (op : Op) (st : DeviceState)
    (hi : 0 < i)
    (hname : op.name = "BasisState" ∨ op.name = "QubitStateVector") :
    applyStepE i op st = .error .sequencing := by
  simp only [applyStepE]
  rw [if_pos ⟨hi, hname⟩]

/-- The sequencing guard never fires for the first operation (enumeration
index 0): whatever else may go wrong there, it is not a sequencing error. -/
theorem applyStepE_zero_not_sequencing (op : Op) (st : DeviceState) :
    applyStepE 0 op st ≠ .error .sequencing := by
  intro h
  have h0 : ¬(0 < 0 ∧ (op.name = "BasisState" ∨ op.name = "QubitStateVector")) := by
    simp
  simp only [applyStepE, _reverse_state_checked, if_neg h0] at h
  iterate 10 (all_goals try split at h)
  all_goals simp_all [ite_eq_iff]

/-! ### The claims -/

/-- Claim C2: both reversal operations are involutions — reversing a wire
list twice yields the original list, and applying the amplitude-reversal
function `_reverse_state` (reshape to an N-fold (2,...,2) tensor, transpose
all axes, flatten) twice to a vector of power-of-two length yields the
original vector. -/
theorem claim_C2_reversal_involutions :
    (∀ w : List ℕ, reverse_wires (reverse_wires w) = w) ∧
    (∀ (N : ℕ) (v : List CQ), v.length = 2 ^ N →
      _reverse_state (_reverse_state v) = v) := by
  constructor
  · intro w
    simp [reverse_wires]
  · intro N v hv
    exact _reverse_state_involution v N hv

/-- Witness for C2 at the concrete wire list `[0, 1, 2]` and the concrete
length-4 amplitude vector `[1, 2, 3, 4]`. -/
theorem claim_C2_witness :
    reverse_wires (reverse_wires [0, 1, 2]) = [0, 1, 2] ∧
    ([⟨1, 0⟩, ⟨2, 0⟩, ⟨3, 0⟩, ⟨4, 0⟩] : List CQ).length = 2 ^ 2 ∧
    _reverse_state (_reverse_state ([⟨1, 0⟩, ⟨2, 0⟩, ⟨3, 0⟩, ⟨4, 0⟩] : List CQ)) =
      [⟨1, 0⟩, ⟨2, 0⟩, ⟨3, 0⟩, ⟨4, 0⟩] :=
  ⟨claim_C2_reversal_involutions.1 [0, 1, 2], by decide,
   claim_C2_reversal_involutions.2 2 _ (by decide)⟩

/-- Claim C1 (code bug): the source computes the amplitude-reversed vector
(`input_state = _reverse_state(input_state)`, line 202) but then loads the
ORIGINAL `par[0]` into the state container (`self._state.load(par[0])`,
line 209), so reading `state` afterwards returns the reversed vector, not
the originally supplied one.  Evaluated at the failing input
`QubitStateVector([0,1,0,0], wires=[0,1])` on a fresh 2-wire device: the
engine receives the un-reversed `[0,1,0,0]`, and `state` then reads back
`[0,0,1,0] ≠ [0,1,0,0]`. -/
theorem claim_C1_qsv_load_not_reversed :
    QulacsDevice.apply
        [⟨"QubitStateVector", [0, 1], .vec [⟨0, 0⟩, ⟨1, 0⟩, ⟨0, 0⟩, ⟨0, 0⟩]⟩]
        initState
      = ({ calls := [.load [⟨0, 0⟩, ⟨1, 0⟩, ⟨0, 0⟩, ⟨0, 0⟩]], circuit := [] },
         none) ∧
    QulacsDevice.state 2 [.load [⟨0, 0⟩, ⟨1, 0⟩, ⟨0, 0⟩, ⟨0, 0⟩]]
      = some [⟨0, 0⟩, ⟨0, 0⟩, ⟨1, 0⟩, ⟨0, 0⟩] ∧
    some ([⟨0, 0⟩, ⟨0, 0⟩, ⟨1, 0⟩, ⟨0, 0⟩] : List CQ) ≠
      some ([⟨0, 0⟩, ⟨1, 0⟩, ⟨0, 0⟩, ⟨0, 0⟩] : List CQ) := by
  refine ⟨?_, by decide, by decide⟩
  have hs : sum_norm_sq [⟨0, 0⟩, ⟨0, 0⟩, ⟨1, 0⟩, ⟨0, 0⟩] = 1 := by
    norm_num [sum_norm_sq, CQ.normSq, List.foldl]
  have hnorm : norm_close_to_one 1 = true := by
    rw [norm_close_to_one, decide_eq_true_eq]
    constructor <;> norm_num [norm_tol]
  have hrev : _reverse_state ([⟨0, 0⟩, ⟨1, 0⟩, ⟨0, 0⟩, ⟨0, 0⟩] : List CQ)
      = [⟨0, 0⟩, ⟨0, 0⟩, ⟨1, 0⟩, ⟨0, 0⟩] := by decide
  have hrevc : _reverse_state_checked [⟨0, 0⟩, ⟨1, 0⟩, ⟨0, 0⟩, ⟨0, 0⟩]
      = .ok [⟨0, 0⟩, ⟨0, 0⟩, ⟨1, 0⟩, ⟨0, 0⟩] := by
    rw [_reverse_state_checked, if_pos (by decide), hrev]
  have hstep : applyStepE 0
      ⟨"QubitStateVector", [0, 1], .vec [⟨0, 0⟩, ⟨1, 0⟩, ⟨0, 0⟩, ⟨0, 0⟩]⟩
      initState
      = .ok { calls := [.load [⟨0, 0⟩, ⟨1, 0⟩, ⟨0, 0⟩, ⟨0, 0⟩]],
              circuit := [] } := by
    simp only [applyStepE, hrevc]
    rw [if_pos trivial]
    rw [if_neg (show ¬(([⟨0, 0⟩, ⟨0, 0⟩, ⟨1, 0⟩, ⟨0, 0⟩] : List CQ).length ≠
      2 ^ (reverse_wires [0, 1]).length) by decide)]
    rw [if_neg (show ¬¬(norm_close_to_one (sum_norm_sq
      [⟨0, 0⟩, ⟨0, 0⟩, ⟨1, 0⟩, ⟨0, 0⟩]) = true) by simp [hs, hnorm])]
    rfl
  simp only [QulacsDevice.apply, applyFrom, hstep]

/-- If the first `i` operations apply cleanly and operation `i` raises `e`,
then `apply` returns the device state reached after exactly the first `i`
operations, together with `e`: the prefix stays applied, the loop aborts. -/
theorem apply_fail_at (ops : List Op) (i : ℕ) (st st1 : DeviceState)
    (e : QulacsError) (hi : i < ops.length)
    (hpre : applyFrom 0 (ops.take i) st = (st1, none))
    (hstep : applyStepE i (ops.getD i default) st1 = .error e) :
    QulacsDevice.apply ops st = (st1, some e) := by
  have hgetD : ops.getD i default = ops[i] := List.getD_eq_getElem ops default hi
  rw [hgetD] at hstep
  have hdrop : ops.drop i = ops[i] :: ops.drop (i + 1) :=
    List.drop_eq_getElem_cons hi
  have hlen : (ops.take i).length = i := by
    rw [List.length_take]
    omega
  calc QulacsDevice.apply ops st
      = applyFrom 0 (ops.take i ++ ops.drop i) st := by
        rw [List.take_append_drop]
        rfl
    _ = applyFrom (0 + (ops.take i).length) (ops.drop i) st1 :=
        applyFrom_append_ok _ _ _ _ _ hpre
    _ = applyFrom i (ops[i] :: ops.drop (i + 1)) st1 := by
        rw [hdrop, hlen, Nat.zero_add]
    _ = (st1, some e) := by
        simp only [applyFrom, hstep]

/-- A sequence with a state-loading operation at a positive index never
applies successfully: either an earlier operation raises first, or the
sequencing guard raises at index `i`. -/
theorem apply_stateload_mid_not_ok (ops : List Op) (st : DeviceState) (i : ℕ)
    (hi : i < ops.length) (hpos : 0 < i)
    (hname : (ops.getD i default).name = "BasisState" ∨
      (ops.getD i default).name = "QubitStateVector") :
    (QulacsDevice.apply ops st).2 ≠ none := by
  rcases hpre : applyFrom 0 (ops.take i) st with ⟨st1, oe⟩
  cases oe with
  | none =>
    rw [apply_fail_at ops i st st1 .sequencing hi hpre
      (applyStepE_sequencing i _ st1 hpos hname)]
    simp
  | some e =>
    have happ : QulacsDevice.apply ops st = (st1, some e) := by
      conv_lhs => rw [QulacsDevice.apply, ← List.take_append_drop i ops]
      exact applyFrom_append_err _ _ _ _ _ _ hpre
    rw [happ]
    simp

/-- Claim C4 (amended): a `BasisState` or `QubitStateVector` operation at a
position `i > 0` means `apply` never succeeds; it raises the sequencing
`DeviceError` provided the operations before position `i` apply successfully
(if an earlier operation raises first, that earlier error is what `apply`
fails with); and the sequencing guard never fires at position 0. -/
theorem claim_C4_sequencing_amended :
    (∀ (ops : List Op) (st st1 : DeviceState) (i : ℕ),
      i < ops.length → 0 < i →
      ((ops.getD i default).name = "BasisState" ∨
        (ops.getD i default).name = "QubitStateVector") →
      applyFrom 0 (ops.take i) st = (st1, none) →
      QulacsDevice.apply ops st = (st1, some .sequencing)) ∧
    (∀ (ops : List Op) (st : DeviceState) (i : ℕ),
      i < ops.length → 0 < i →
      ((ops.getD i default).name = "BasisState" ∨
        (ops.getD i default).name = "QubitStateVector") →
      (QulacsDevice.apply ops st).2 ≠ none) ∧
    (∀ (op : Op) (st : DeviceState),
      op.name = "BasisState" ∨ op.name = "QubitStateVector" →
      applyStepE 0 op st ≠ .error .sequencing) := by
  refine ⟨?_, ?_, ?_⟩
  · intro ops st st1 i hi hpos hname hpre
    exact apply_fail_at ops i st st1 .sequencing hi hpre
      (applyStepE_sequencing i _ st1 hpos hname)
  · intro ops st i hi hpos hname
    exact apply_stateload_mid_not_ok ops st i hi hpos hname
  · intro op st _
    exact applyStepE_zero_not_sequencing op st

/-- Witness for C4: `apply([Hadamard(0), BasisState([0], wires=[0])])` on a
fresh device applies the Hadamard and then raises the sequencing error, and
the sequencing guard does not fire for a `BasisState` at position 0. -/
theorem claim_C4_witness :
    QulacsDevice.apply
        [⟨"Hadamard", [0], .angles []⟩, ⟨"BasisState", [0], .bits [0]⟩]
        initState
      = ({ calls := [.applyGate (.prim "Hadamard" [0] [])],
           circuit := [.prim "Hadamard" [0] []] }, some .sequencing) ∧
    applyStepE 0 ⟨"BasisState", [0], .bits [0]⟩ initState ≠
      .error .sequencing :=
  ⟨claim_C4_sequencing_amended.1
      [⟨"Hadamard", [0], .angles []⟩, ⟨"BasisState", [0], .bits [0]⟩]
      initState _ 1 (by decide) (by decide) (Or.inl (by decide)) (by decide),
   claim_C4_sequencing_amended.2.2 _ initState (Or.inl rfl)⟩

/-- Counterexample for C4 as stated: in
`apply([QubitStateVector([1,0,0], wires=[0]), BasisState([0], wires=[0])])`
the second operation is state-loading at position 1, yet `apply` fails with
the reshape error raised by the first operation, not with the sequencing
error. -/
theorem claim_C4_counterexample :
    (QulacsDevice.apply
        [⟨"QubitStateVector", [0], .vec [⟨1, 0⟩, ⟨0, 0⟩, ⟨0, 0⟩]⟩,
         ⟨"BasisState", [0], .bits [0]⟩] initState).2
      = some .reshape ∧
    some QulacsError.reshape ≠ some QulacsError.sequencing := by
  constructor
  · decide
  · decide

/-- Claim C9: if the operations before position `i` apply successfully and
the operation at position `i` raises an error `e`, then `apply` returns with
exactly the device state reached after the first `i` operations (the prefix
has been applied to the state vector and circuit log and remains applied),
and no later operation is ever applied: the loop aborts immediately with
`e`, with no retry. -/
theorem claim_C9_prefix_retained_abort :
    ∀ (ops : List Op) (i : ℕ) (st st1 : DeviceState) (e : QulacsError),
      i < ops.length →
      applyFrom 0 (ops.take i) st = (st1, none) →
      applyStepE i (ops.getD i default) st1 = .error e →
      QulacsDevice.apply ops st = (st1, some e) := by
  intro ops i st st1 e hi hpre hstep
  exact apply_fail_at ops i st st1 e hi hpre hstep

/-- Witness for C9: `apply([PauliX(0), QubitUnitary([[1]], wires=[0])])` on a
fresh device fails at position 1 with the unitary-shape error, leaving
exactly the PauliX applied. -/
theorem claim_C9_witness :
    QulacsDevice.apply
        [⟨"PauliX", [0], .angles []⟩, ⟨"QubitUnitary", [0], .mat [[⟨1, 0⟩]]⟩]
        initState
      = ({ calls := [.applyGate (.prim "PauliX" [0] [])],
           circuit := [.prim "PauliX" [0] []] }, some .unitaryShape) :=
  claim_C9_prefix_retained_abort _ 1 initState _ .unitaryShape (by decide)
    (by decide) (by decide)

/-- Claim C6 (amended): for a `QubitStateVector` operation whose (nonempty)
amplitude parameter has length different from `2^(#wires)`: if that length is
a power of two, `apply` raises the length-mismatch `ValueError` ("State
vector must be of length 2**wires"); but if the length is not a power of two,
the reshape inside `_reverse_state` (line 202, which runs before the length
check on line 204) fails first, so the error raised is the reshape error and
not the length-mismatch one. -/
theorem claim_C6_length_errors_amended :
    ∀ (v : List CQ) (w : List ℕ) (st : DeviceState),
      0 < v.length →
      (v.length ≠ 2 ^ log2_floor v.length →
        QulacsDevice.apply [⟨"QubitStateVector", w, .vec v⟩] st
          = (st, some .reshape)) ∧
      (v.length = 2 ^ log2_floor v.length → v.length ≠ 2 ^ w.length →
        QulacsDevice.apply [⟨"QubitStateVector", w, .vec v⟩] st
          = (st, some .stateLength)) := by
  intro v w st _
  constructor
  · intro hnp
    have hrc : _reverse_state_checked v = .error .reshape := by
      rw [_reverse_state_checked, if_neg hnp]
    have hstep : applyStepE 0 ⟨"QubitStateVector", w, .vec v⟩ st
        = .error .reshape := by
      simp only [applyStepE, hrc]
      rw [if_neg (show ¬(0 < 0 ∧ ("QubitStateVector" = "BasisState" ∨ True))
        by simp), if_pos trivial]
    simp only [QulacsDevice.apply, applyFrom, hstep]
  · intro hp hne
    have hrc : _reverse_state_checked v = .ok (_reverse_state v) := by
      rw [_reverse_state_checked, if_pos hp]
    have hlen : (_reverse_state v).length = v.length := by
      rw [_reverse_state_length, ← hp]
    have hcond : (_reverse_state v).length ≠
        2 ^ (reverse_wires w).length := by
      rw [hlen, reverse_wires, List.length_reverse]
      exact hne
    have hstep : applyStepE 0 ⟨"QubitStateVector", w, .vec v⟩ st
        = .error .stateLength := by
      simp only [applyStepE, hrc]
      rw [if_pos hcond]
      rw [if_neg (show ¬(0 < 0 ∧ ("QubitStateVector" = "BasisState" ∨ True))
        by simp), if_pos trivial]
    simp only [QulacsDevice.apply, applyFrom, hstep]

/-- Witness for C6 at concrete inputs: length 3 on one wire raises the
reshape error; length 2 on two wires raises the length-mismatch error. -/
theorem claim_C6_witness :
    QulacsDevice.apply
        [⟨"QubitStateVector", [0], .vec [⟨1, 0⟩, ⟨0, 0⟩, ⟨0, 0⟩]⟩] initState
      = (initState, some .reshape) ∧
    QulacsDevice.apply
        [⟨"QubitStateVector", [0, 1], .vec [⟨1, 0⟩, ⟨0, 0⟩]⟩] initState
      = (initState, some .stateLength) :=
  ⟨(claim_C6_length_errors_amended [⟨1, 0⟩, ⟨0, 0⟩, ⟨0, 0⟩] [0] initState
      (by decide)).1 (by decide),
   (claim_C6_length_errors_amended [⟨1, 0⟩, ⟨0, 0⟩] [0, 1] initState
      (by decide)).2 (by decide) (by decide)⟩

/-- Counterexample for C6 as stated: `QubitStateVector([1,0,0], wires=[0])`
has mismatched length 3 ≠ 2¹, but the error `apply` fails with is the
reshape error from `_reverse_state`, not the length-mismatch error. -/
theorem claim_C6_counterexample :
    (QulacsDevice.apply
        [⟨"QubitStateVector", [0], .vec [⟨1, 0⟩, ⟨0, 0⟩, ⟨0, 0⟩]⟩]
        initState).2
      = some .reshape ∧
    some QulacsError.reshape ≠ some QulacsError.stateLength :=
  ⟨by decide, by decide⟩

/-- Claim C5 (amended): when the state container is uninitialized
(`self._state is None`), `analytic_probability` RETURNS `None` (Python's
null) — a normal return, modelled by `.ok none` — for every wire argument;
it does not raise any error. -/
theorem claim_C5_returns_none_amended :
    ∀ (n : ℕ) (w : Option (List ℕ)),
      QulacsDevice.analytic_probability n none w = .ok none := by
  intro n w
  rfl

/-- Counterexample for C5 as stated: with the state container uninitialized,
`analytic_probability` returns normally with the null value (`.ok none`); its
only exit on this path is `return None` (qulacs_device.py lines 274-275), so
no `EmptyStateError` — no error at all — is raised. -/
theorem claim_C5_counterexample :
    QulacsDevice.analytic_probability 2 none none = .ok none := rfl

/-- Claim C7 (code bug): the module constant `toffoli` is NOT the permutation
matrix of a three-wire controlled-controlled-not.  The constant swaps basis
states 0 and 1 — the pair whose two non-target bits are both ZERO — and fixes
basis states 6 and 7 (and 3), whereas the controlled-controlled-not
permutation (`ccnot_perm`, target = least-significant bit per the engine's
wire ordering) fixes 0 and 1 and swaps exactly 6 and 7 (the pair with both
control bits 1).  Evaluated entrywise at the failing basis states, and the
two matrices are proven unequal. -/
theorem claim_C7_toffoli_constant_bug :
    toffoli 0 1 = 1 ∧ toffoli 1 0 = 1 ∧ toffoli 0 0 = 0 ∧ toffoli 1 1 = 0 ∧
    toffoli 6 7 = 0 ∧ toffoli 7 6 = 0 ∧ toffoli 6 6 = 1 ∧ toffoli 7 7 = 1 ∧
    toffoli 3 7 = 0 ∧ toffoli 3 3 = 1 ∧
    ccnot_perm 6 7 = 1 ∧ ccnot_perm 7 6 = 1 ∧ ccnot_perm 6 6 = 0 ∧
    ccnot_perm 0 0 = 1 ∧ ccnot_perm 0 1 = 0 ∧
    toffoli ≠ ccnot_perm := by
  decide

/-- Claim C3 (amended): for `Rot(θ0,θ1,θ2)` on a single wire `w`, `apply`
negates the three angles and applies exactly three engine primitives in the
fixed order RZ(−θ0), RY(−θ1), RZ(−θ2), each individually appended to the
circuit log and applied to the state vector; consequently the final device
state (engine-call trace and circuit log alike) equals that of applying the
separate operations RZ(θ0), RY(θ1), RZ(θ2) — with the angles UN-negated,
because `apply` negates each primitive operation's parameter again in its
final branch. -/
theorem claim_C3_rot_decomposition_amended :
    ∀ (a b c : ℚ) (w : ℕ) (st : DeviceState),
      QulacsDevice.apply [⟨"Rot", [w], .angles [a, b, c]⟩] st
        = ({ calls := st.calls ++
              [.applyGate (.prim "RZ" [w] [-a]),
               .applyGate (.prim "RY" [w] [-b]),
               .applyGate (.prim "RZ" [w] [-c])],
             circuit := st.circuit ++
              [.prim "RZ" [w] [-a], .prim "RY" [w] [-b],
               .prim "RZ" [w] [-c]] },
           none) ∧
      QulacsDevice.apply [⟨"Rot", [w], .angles [a, b, c]⟩] st
        = QulacsDevice.apply
            [⟨"RZ", [w], .angles [a]⟩, ⟨"RY", [w], .angles [b]⟩,
             ⟨"RZ", [w], .angles [c]⟩] st := by
  intro a b c w st
  constructor
  · simp [QulacsDevice.apply, applyFrom, applyStepE, reverse_wires,
      else_names, List.append_assoc]
  · simp [QulacsDevice.apply, applyFrom, applyStepE, reverse_wires,
      else_names, List.append_assoc]

/-- Counterexample for C3 as stated: under the spec-modelled engine rotation
semantics (`engine_rot_gate`, sign convention `exp(+iθ/2·P)`),
`apply([Rot(2,0,0)])` and `apply([RZ(-2), RY(0), RZ(0)])` drive a fresh
single-qubit engine from `|0⟩ = (1,0)` to DIFFERENT states: `Rot` issues the
engine gate RZ(−2) while the separate operation RZ(−2) is negated again by
`apply` into the engine gate RZ(+2), and `e^{−i} ≠ e^{+i}`. -/
theorem claim_C3_counterexample :
    run1 ((QulacsDevice.apply [⟨"Rot", [0], .angles [2, 0, 0]⟩]
          initState).1.calls) (1, 0)
      ≠ run1 ((QulacsDevice.apply
            [⟨"RZ", [0], .angles [-2]⟩, ⟨"RY", [0], .angles [0]⟩,
             ⟨"RZ", [0], .angles [0]⟩] initState).1.calls) (1, 0) := by
  have h1 : (QulacsDevice.apply [⟨"Rot", [0], .angles [2, 0, 0]⟩]
        initState).1.calls
      = [.applyGate (.prim "RZ" [0] [-2]), .applyGate (.prim "RY" [0] [-0]),
         .applyGate (.prim "RZ" [0] [-0])] := by decide
  have h2 : (QulacsDevice.apply
        [⟨"RZ", [0], .angles [-2]⟩, ⟨"RY", [0], .angles [0]⟩,
         ⟨"RZ", [0], .angles [0]⟩] initState).1.calls
      = [.applyGate (.prim "RZ" [0] [2]), .applyGate (.prim "RY" [0] [-0]),
         .applyGate (.prim "RZ" [0] [-0])] := by decide
  rw [h1, h2]
  intro heq
  have him := congrArg (fun p => p.1.im) heq
  simp only [run1, List.foldl, engine_rot_gate] at him
  norm_num [Complex.exp_ofReal_mul_I_im, Real.sin_neg] at him
  have e1 : (Complex.exp (-Complex.I)).im = -Real.sin 1 := by
    have harg : (-Complex.I) = ((-1 : ℝ) : ℂ) * Complex.I := by
      push_cast
      ring
    rw [harg, Complex.exp_ofReal_mul_I_im, Real.sin_neg]
  have e2 : (Complex.exp Complex.I).im = Real.sin 1 := by
    have harg : (Complex.I) = ((1 : ℝ) : ℂ) * Complex.I := by
      push_cast
      ring
    rw [harg, Complex.exp_ofReal_mul_I_im]
  rw [e1, e2] at him
  have hsin : 0 < Real.sin 1 :=
    Real.sin_pos_of_pos_of_lt_pi one_pos (by linarith [Real.pi_gt_three])
  linarith [him, hsin]

/-- `np.allclose(A, A)` always holds: each entry is within tolerance of
itself (the difference is 0 and the tolerance bound is nonnegative). -/
theorem entry_close_self (a : CQ) : entry_close a a = true := by
  have hnn : 0 ≤ CQ.normSq a := by
    rw [CQ.normSq]
    have h1 := mul_self_nonneg a.re
    have h2 := mul_self_nonneg a.im
    linarith
  have hsub : CQ.normSq (a.sub a) = 0 := by
    simp [CQ.sub, CQ.normSq]
  rw [entry_close, hsub, sqrt_le_tol, if_pos]
  linarith [sq_nonneg np_atol, mul_nonneg (sq_nonneg np_rtol) hnn]

theorem allclose_self (m : List (List CQ)) : allclose m m = true := by
  simp only [allclose, List.all_eq_true]
  intro i _ j _
  exact entry_close_self _

/-- Claim C8: the Hermitian-observable validator `hermitian` raises the
validation `ValueError` for every matrix that is not square, and for every
square matrix not equal to its own conjugate transpose within `np.allclose`
tolerance; every square matrix within that tolerance is returned unchanged
(in particular every exactly Hermitian matrix, since `allclose` is
reflexive).  Concretely, the real diagonal Pauli-Z matrix passes unchanged,
the non-self-adjoint complex matrix `[[0, i], [0, 0]]` fails, and the matrix
`[[1e-9·i]]` — NOT exactly Hermitian, but within the floating tolerance —
passes, so the accepted set is genuinely the tolerance band and not exact
equality. -/
theorem claim_C8_hermitian_validator :
    (∀ m : List (List CQ), m.length ≠ cols m →
      hermitian m = .error .validation) ∧
    (∀ m : List (List CQ), m.length = cols m →
      allclose m (conjT m) = true → hermitian m = .ok m) ∧
    (∀ m : List (List CQ), m.length = cols m →
      allclose m (conjT m) = false → hermitian m = .error .validation) ∧
    (∀ m : List (List CQ), m.length = cols m → conjT m = m →
      hermitian m = .ok m) ∧
    hermitian [[⟨1, 0⟩, ⟨0, 0⟩], [⟨0, 0⟩, ⟨-1, 0⟩]]
      = .ok [[⟨1, 0⟩, ⟨0, 0⟩], [⟨0, 0⟩, ⟨-1, 0⟩]] ∧
    hermitian [[⟨0, 0⟩, ⟨0, 1⟩], [⟨0, 0⟩, ⟨0, 0⟩]] = .error .validation ∧
    (hermitian [[⟨0, 1 / 1000000000⟩]] = .ok [[⟨0, 1 / 1000000000⟩]] ∧
     conjT [[⟨0, 1 / 1000000000⟩]] ≠ [[⟨0, 1 / 1000000000⟩]]) := by
  refine ⟨?_, ?_, ?_, ?_, ?_, ?_, ?_, ?_⟩
  · intro m hm
    rw [hermitian, if_pos hm]
  · intro m hsq hcl
    rw [hermitian, if_neg (by simp [hsq]), if_neg (by simp [hcl])]
  · intro m hsq hcl
    rw [hermitian, if_neg (by simp [hsq]), if_pos (by simp [hcl])]
  · intro m hsq hct
    rw [hermitian, if_neg (by simp [hsq]), if_neg (by simp [hct, allclose_self])]
  · have hct : conjT [[⟨1, 0⟩, ⟨0, 0⟩], [⟨0, 0⟩, ⟨-1, 0⟩]]
        = [[⟨1, 0⟩, ⟨0, 0⟩], [⟨0, 0⟩, ⟨-1, 0⟩]] := by decide
    rw [hermitian, if_neg (by decide), if_neg (by simp [hct, allclose_self])]
  · have hbad : allclose [[⟨0, 0⟩, ⟨0, 1⟩], [⟨0, 0⟩, ⟨0, 0⟩]]
        (conjT [[⟨0, 0⟩, ⟨0, 1⟩], [⟨0, 0⟩, ⟨0, 0⟩]]) = false := by
      norm_num [allclose, conjT, cols, entry_close, CQ.sub, CQ.conj,
        CQ.normSq, sqrt_le_tol, np_atol, np_rtol, List.range_succ]
    rw [hermitian, if_neg (by decide), if_pos (by simp [hbad])]
  · have hcl : allclose [[⟨0, 1 / 1000000000⟩]]
        (conjT [[⟨0, 1 / 1000000000⟩]]) = true := by
      norm_num [allclose, conjT, cols, entry_close, CQ.sub, CQ.conj,
        CQ.normSq, sqrt_le_tol, np_atol, np_rtol, List.range_succ]
    rw [hermitian, if_neg (by norm_num [cols]), if_neg (by rw [hcl]; simp)]
  · norm_num [conjT, cols, CQ.conj, List.range_succ, List.getD]

/-- Witness for C8 at concrete matrices, exercising all three quantified
branches: a 1×2 (non-square) matrix raises the validation error; the square
matrix `[[3]]` is within tolerance of its conjugate transpose and passes
through; the square matrix `[[0, 2], [0, 0]]` is outside tolerance and
raises the validation error. -/
theorem claim_C8_witness :
    hermitian [[⟨1, 0⟩, ⟨0, 0⟩]] = .error .validation ∧
    hermitian [[⟨3, 0⟩]] = .ok [[⟨3, 0⟩]] ∧
    hermitian [[⟨0, 0⟩, ⟨2, 0⟩], [⟨0, 0⟩, ⟨0, 0⟩]] = .error .validation :=
  ⟨claim_C8_hermitian_validator.1 [[⟨1, 0⟩, ⟨0, 0⟩]] (by decide),
   claim_C8_hermitian_validator.2.1 [[⟨3, 0⟩]] (by decide) (by
      norm_num [allclose, conjT, cols, entry_close, CQ.sub, CQ.conj,
        CQ.normSq, sqrt_le_tol, np_atol, np_rtol, List.range_succ]),
   claim_C8_hermitian_validator.2.2.1 [[⟨0, 0⟩, ⟨2, 0⟩], [⟨0, 0⟩, ⟨0, 0⟩]]
     (by decide) (by
      norm_num [allclose, conjT, cols, entry_close, CQ.sub, CQ.conj,
        CQ.normSq, sqrt_le_tol, np_atol, np_rtol, List.range_succ])⟩

/-- Claim C10: `analytic_probability` with an empty wire list behaves
identically to calling it with no wire argument — the Python expression
`wires = wires or range(self.num_wires)` treats the empty (falsy) sequence
as absent — and the result is the marginal probability vector over all
wires, of length `2^N`, rather than a length-1 trivial marginal over zero
wires. -/
theorem claim_C10_empty_wires_full_marginal :
    ∀ (n : ℕ) (v : List CQ),
      QulacsDevice.analytic_probability n (some v) (some [])
        = QulacsDevice.analytic_probability n (some v) none ∧
      (∀ p : List ℚ,
        QulacsDevice.analytic_probability n (some v) (some [])
          = .ok (some p) →
        p.length = 2 ^ n) := by
  intro n v
  constructor
  · rfl
  · intro p hp
    simp only [QulacsDevice.analytic_probability, List.isEmpty_nil,
      if_true] at hp
    have h2 : marginal_prob ((_reverse_state v).map fun a => a.normSq)
        (List.range n) n = p := by
      have h3 := Except.ok.inj hp
      exact Option.some.inj h3
    rw [← h2, marginal_prob]
    simp

/-- Witness for C10: on a 1-wire device with loaded state `[1, 0]`, the
empty-wire-list call and the no-argument call agree, and the returned
marginal `[1, 0]` has length `2^1`, not length 1. -/
theorem claim_C10_witness :
    QulacsDevice.analytic_probability 1 (some [⟨1, 0⟩, ⟨0, 0⟩]) (some [])
      = QulacsDevice.analytic_probability 1 (some [⟨1, 0⟩, ⟨0, 0⟩]) none ∧
    ([1, 0] : List ℚ).length = 2 ^ 1 :=
  ⟨(claim_C10_empty_wires_full_marginal 1 [⟨1, 0⟩, ⟨0, 0⟩]).1,
   (claim_C10_empty_wires_full_marginal 1 [⟨1, 0⟩, ⟨0, 0⟩]).2 [1, 0] (by
      norm_num [QulacsDevice.analytic_probability, marginal_prob, bit_at,
        _reverse_state, log2_floor, log2_aux, bitRev, CQ.normSq,
        List.range_succ, List.foldl])⟩
